import Mathlib

/-!
Formal model of the AssetReli ML service model-lifecycle engine
(ml-service/app): the deployment promotion transaction, the model
registry with its LRU cache and snapshot maps, and the retraining
pipeline with its feedback gate and concurrency guard.

Database rows are modelled as Lean structures, UUIDs as natural
numbers, and Python dicts as association lists where assignment
updates an existing key in place and appends a fresh key at the end
(exactly the observable dict semantics: lookup, key order, values).
-/

/-- Association-list lookup: first binding of the key wins (dict lookup). -/
def alookup {α β : Type} [DecidableEq α] : List (α × β) → α → Option β
  | [], _ => none
  | (k, v) :: rest, k' => if k = k' then some v else alookup rest k'

/-- Dict assignment `m[k] = v`: overwrite an existing binding in place,
append a new binding at the end otherwise. -/
def setAssoc {α β : Type} [DecidableEq α] : List (α × β) → α → β → List (α × β)
  | [], k, v => [(k, v)]
  | p :: rest, k, v => if p.1 = k then (k, v) :: rest else p :: setAssoc rest k v

theorem alookup_setAssoc_self {α β : Type} [DecidableEq α]
    (m : List (α × β)) (k : α) (v : β) :
    alookup (setAssoc m k v) k = some v := by
  induction m with
  | nil => simp [setAssoc, alookup]
  | cons p rest ih =>
    by_cases h : p.1 = k
    · simp [setAssoc, h, alookup]
    · simp [setAssoc, h, alookup, ih]

theorem alookup_setAssoc_ne {α β : Type} [DecidableEq α]
    (m : List (α × β)) (k k' : α) (v : β) (hne : k ≠ k') :
    alookup (setAssoc m k v) k' = alookup m k' := by
  induction m with
  | nil => simp [setAssoc, alookup, hne]
  | cons p rest ih =>
    by_cases h : p.1 = k
    · simp [setAssoc, h, alookup, hne]
    · simp [setAssoc, h, alookup, ih]

/-- Row of the `ml_model_versions` table (fields used by the core). -/
structure MLModelVersionRow where
  id : Nat
  tenant_id : Nat
  model_id : Nat
  semantic_version : String
  full_version_label : String
  stage : String
  model_artifact_path : String
  is_deleted : Bool
deriving Repr, DecidableEq

/-- Row of the `ml_model_deployments` table. `deployment_end = none`
while the deployment is open. -/
structure MLModelDeploymentRow where
  id : Nat
  tenant_id : Nat
  model_id : Nat
  model_version_id : Nat
  is_production : Bool
  deployment_start : Nat
  deployment_end : Option Nat
deriving Repr, DecidableEq

/-- The where-clause of the deploy transaction's update statement:
an open production deployment for the given tenant and model. -/
def isOpenProd (t m : Nat) (d : MLModelDeploymentRow) : Bool :=
  (d.tenant_id == t) && (d.model_id == m) && d.is_production
    && (d.deployment_end == none)

/-- Effect of `update ... values(deployment_end=now, is_production=False)`
on a single row: close it when it matches the where-clause. -/
def closeOpenProd (t m now : Nat) (d : MLModelDeploymentRow) : MLModelDeploymentRow :=
  if isOpenProd t m d then
    { d with deployment_end := some now, is_production := false }
  else d

/-- The open production deployments of a (tenant, model) pair. -/
def openProd (deps : List MLModelDeploymentRow) (t m : Nat) : List MLModelDeploymentRow :=
  deps.filter (isOpenProd t m)

/-- Invariant: at most one open production deployment per (tenant, model). -/
def atMostOneOpenProd (deps : List MLModelDeploymentRow) : Prop :=
  ∀ t m, (openProd deps t m).length ≤ 1

/-- In-memory state of the `ModelRegistry`.
`loaded` is the LRU cache in order (head = least recently used,
last = most recently used), keyed by version id with the loaded
version's label as the stored value. -/
structure ModelRegistryState where
  loaded : List (Nat × String)
  max_loaded : Nat
  tenant_defaults : List (Nat × Nat)
  version_paths : List (Nat × String)
  default_version : String
  default_loaded : Bool
deriving Repr, DecidableEq

/-- Combined state touched by the deploy endpoint: the two PG tables
and the in-process registry maps. -/
structure SystemState where
  versions : List MLModelVersionRow
  deployments : List MLModelDeploymentRow
  registry : ModelRegistryState
deriving Repr, DecidableEq

structure DeployResponse where
  success : Bool
  deployment_id : Nat
  is_production : Bool
deriving Repr, DecidableEq

/-- The deploy endpoint `deploy_model_version` (models/router.py):
404 (`none`) when the version id is unknown or soft-deleted; otherwise,
in one transaction, close the open production deployments of the same
tenant and model (when promoting), promote the version's stage, insert
the new deployment row, and after commit patch the registry's
tenant-default and version-path maps for this one tenant/version. -/
def deploy_model_version (st : SystemState) (version_id : Nat)
    (is_production : Bool) (now new_dep_id : Nat) :
    Option (SystemState × DeployResponse) :=
  match st.versions.find? (fun v => (v.id == version_id) && !v.is_deleted) with
  | none => none
  | some v =>
    let deployments1 :=
      if is_production then
        st.deployments.map (closeOpenProd v.tenant_id v.model_id now)
      else st.deployments
    let versions1 :=
      if is_production then
        st.versions.map (fun w =>
          if w.id == v.id then { w with stage := "production" } else w)
      else st.versions
    let newDep : MLModelDeploymentRow :=
      { id := new_dep_id
        tenant_id := v.tenant_id
        model_id := v.model_id
        model_version_id := v.id
        is_production := is_production
        deployment_start := now
        deployment_end := none }
    let registry1 :=
      if is_production then
        { st.registry with
            tenant_defaults := setAssoc st.registry.tenant_defaults v.tenant_id v.id
            version_paths := setAssoc st.registry.version_paths v.id v.model_artifact_path }
      else st.registry
    some ({ versions := versions1
            deployments := deployments1 ++ [newDep]
            registry := registry1 },
          { success := true, deployment_id := new_dep_id, is_production := is_production })

/-- One call of the deploy endpoint; a 404 leaves the state unchanged
(nothing was committed). -/
structure DeployOp where
  version_id : Nat
  is_production : Bool
  now : Nat
  dep_id : Nat
deriving Repr, DecidableEq

def applyDeployOp (st : SystemState) (op : DeployOp) : SystemState :=
  match deploy_model_version st op.version_id op.is_production op.now op.dep_id with
  | some (st', _) => st'
  | none => st

def runDeploys (st : SystemState) (ops : List DeployOp) : SystemState :=
  ops.foldl applyDeployOp st

theorem isOpenProd_close_self (t m now : Nat) (d : MLModelDeploymentRow) :
    isOpenProd t m (closeOpenProd t m now d) = false := by
  by_cases h : isOpenProd t m d
  · rw [closeOpenProd, if_pos h]
    simp [isOpenProd]
  · rw [closeOpenProd, if_neg h]
    simpa using h

theorem isOpenProd_close_other (t m now t' m' : Nat) (d : MLModelDeploymentRow)
    (hne : ¬(t' = t ∧ m' = m)) :
    isOpenProd t' m' (closeOpenProd t m now d) = isOpenProd t' m' d := by
  by_cases h : isOpenProd t m d
  · have hp := h
    simp only [isOpenProd, Bool.and_eq_true, beq_iff_eq] at hp
    have hlhs : isOpenProd t' m' (closeOpenProd t m now d) = false := by
      rw [closeOpenProd, if_pos h]
      simp [isOpenProd]
    have hrhs : isOpenProd t' m' d = false := by
      rw [Bool.eq_false_iff]
      intro hc
      simp only [isOpenProd, Bool.and_eq_true, beq_iff_eq] at hc
      exact hne ⟨hc.1.1.1.symm.trans hp.1.1.1, hc.1.1.2.symm.trans hp.1.1.2⟩
    rw [hlhs, hrhs]
  · rw [closeOpenProd, if_neg h]

theorem filter_map_nil_of_false {α : Type} (f : α → α) (p : α → Bool) (l : List α)
    (hp : ∀ a, p (f a) = false) :
    (l.map f).filter p = [] := by
  induction l with
  | nil => rfl
  | cons a rest ih => simp [List.filter_cons, hp a, ih]

theorem filter_map_of_pointwise {α : Type} (f : α → α) (p : α → Bool) (l : List α)
    (hp : ∀ a, p (f a) = p a) :
    ((l.map f).filter p).length = (l.filter p).length := by
  induction l with
  | nil => rfl
  | cons a rest ih =>
    simp only [List.map_cons, List.filter_cons, hp a]
    cases hpa : p a with
    | false => simpa using ih
    | true => simpa using ih

theorem isOpenProd_newDep_other (t m : Nat) (v : MLModelVersionRow)
    (ip : Bool) (now nid : Nat) (hne : ¬(t = v.tenant_id ∧ m = v.model_id)) :
    isOpenProd t m
      { id := nid, tenant_id := v.tenant_id, model_id := v.model_id,
        model_version_id := v.id, is_production := ip,
        deployment_start := now, deployment_end := none } = false := by
  rw [Bool.eq_false_iff]
  intro hc
  simp only [isOpenProd, Bool.and_eq_true, beq_iff_eq] at hc
  exact hne ⟨hc.1.1.1.symm, hc.1.1.2.symm⟩

theorem atMostOneOpenProd_preserved (st : SystemState) (op : DeployOp)
    (hinv : atMostOneOpenProd st.deployments) :
    atMostOneOpenProd (applyDeployOp st op).deployments := by
  cases hfind : st.versions.find? (fun v => (v.id == op.version_id) && !v.is_deleted) with
  | none =>
    simpa [applyDeployOp, deploy_model_version, hfind] using hinv
  | some v =>
    intro t m
    simp only [applyDeployOp, deploy_model_version, hfind, openProd, List.filter_append,
      List.length_append]
    by_cases hprod : op.is_production
    · simp only [hprod, if_true]
      by_cases hsame : t = v.tenant_id ∧ m = v.model_id
      · rw [hsame.1, hsame.2,
          filter_map_nil_of_false _ _ _ (isOpenProd_close_self v.tenant_id v.model_id op.now)]
        simp only [List.length_nil, Nat.zero_add, List.filter_cons, List.filter_nil]
        cases hnd : isOpenProd v.tenant_id v.model_id
            { id := op.dep_id, tenant_id := v.tenant_id, model_id := v.model_id,
              model_version_id := v.id, is_production := true,
              deployment_start := op.now, deployment_end := none } <;> simp
      · have hlen := filter_map_of_pointwise (closeOpenProd v.tenant_id v.model_id op.now)
          (isOpenProd t m) st.deployments
          (fun d => isOpenProd_close_other v.tenant_id v.model_id op.now t m d hsame)
        rw [hlen]
        rw [List.filter_cons, if_neg (by
          rw [isOpenProd_newDep_other t m v true op.now op.dep_id hsame]
          simp)]
        simpa [openProd] using hinv t m
    · have hprod' : op.is_production = false := by simpa using hprod
      simp only [hprod', Bool.false_eq_true, if_false]
      have hnd : isOpenProd t m
          { id := op.dep_id, tenant_id := v.tenant_id, model_id := v.model_id,
            model_version_id := v.id, is_production := false,
            deployment_start := op.now, deployment_end := none } = false := by
        simp [isOpenProd]
      rw [List.filter_cons, if_neg (by rw [hnd]; simp)]
      simpa [openProd] using hinv t m

theorem runDeploys_preserves (ops : List DeployOp) :
    ∀ st : SystemState, atMostOneOpenProd st.deployments →
      atMostOneOpenProd (runDeploys st ops).deployments := by
  induction ops with
  | nil => intro st h; exact h
  | cons op rest ih =>
    intro st h
    simp only [runDeploys, List.foldl_cons] at ih ⊢
    exact ih _ (atMostOneOpenProd_preserved st op h)

/-- C1: starting from an empty deployment table, every sequence of
deploy operations preserves the invariant that each (tenant, model)
pair has at most one open production deployment: promotion first
closes every open production deployment of the pair in the same
transaction that inserts the new record. -/
theorem at_most_one_open_production_deployment
    (versions : List MLModelVersionRow) (reg : ModelRegistryState)
    (ops : List DeployOp) :
    atMostOneOpenProd (runDeploys ⟨versions, [], reg⟩ ops).deployments := by
  exact runDeploys_preserves ops ⟨versions, [], reg⟩
    (by intro t m; simp [openProd])

/-- Result dict of `ModelRegistry.predict` (routing fields; the numeric
prediction itself is delegated to the loaded model handle).
`did_load` records whether this call loaded an artifact (cache miss). -/
structure PredictResult where
  model_version_id : Option Nat
  model_version_label : String
  did_load : Bool
deriving Repr, DecidableEq

/-- Model of `ModelRegistry._resolve_version_id`: the explicit version id wins,
otherwise the tenant's default from the snapshot map, otherwise none. -/
def resolveVersionId (reg : ModelRegistryState)
    (model_version_id tenant_id : Option Nat) : Option Nat :=
  match model_version_id with
  | some v => some v
  | none =>
    match tenant_id with
    | some t => alookup reg.tenant_defaults t
    | none => none

/-- Model of `ModelRegistry._load_version`: look up the artifact path and load the
model handle. The `available` oracle abstracts whether the artifact file
exists and loads cleanly; `labelOf` is the label the loaded handle
reports. At capacity the least-recently-used entry (cache head) is
evicted first; the new entry enters at the most-recently-used end.
Any failure yields `none`. -/
def loadVersion (available : Nat → Bool) (labelOf : Nat → String)
    (reg : ModelRegistryState) (v : Nat) : Option (String × ModelRegistryState) :=
  match alookup reg.version_paths v with
  | none => none
  | some _ =>
    if available v then
      let cache :=
        if reg.max_loaded ≤ reg.loaded.length then reg.loaded.tail else reg.loaded
      some (labelOf v, { reg with loaded := cache ++ [(v, labelOf v)] })
    else none

/-- Model of `ModelRegistry.predict`: resolve a version id; on a cache hit move
the entry to the most-recently-used end without reloading; on a miss
with a known artifact path load it into the cache; otherwise fall back
to the filesystem default model (`none` only when even the default
model is not loaded, in which case the handle raises). -/
def registryPredict (available : Nat → Bool) (labelOf : Nat → String)
    (reg : ModelRegistryState) (model_version_id tenant_id : Option Nat) :
    Option (PredictResult × ModelRegistryState) :=
  match resolveVersionId reg model_version_id tenant_id with
  | some v =>
    match alookup reg.loaded v with
    | some lbl =>
      some ({ model_version_id := some v, model_version_label := lbl, did_load := false },
        { reg with loaded := reg.loaded.filter (fun p => !(p.1 == v)) ++ [(v, lbl)] })
    | none =>
      match loadVersion available labelOf reg v with
      | some (lbl, reg') =>
        some ({ model_version_id := some v, model_version_label := lbl, did_load := true },
          reg')
      | none =>
        if reg.default_loaded then
          some ({ model_version_id := none, model_version_label := reg.default_version,
                  did_load := false }, reg)
        else none
  | none =>
    if reg.default_loaded then
      some ({ model_version_id := none, model_version_label := reg.default_version,
              did_load := false }, reg)
    else none

/-- Response of the `/predict` endpoint (prediction/router.py):
`model_version` is the registry's current default label,
`model_version_id` comes from the prediction result. -/
structure PredictionResponse where
  model_version : String
  model_version_id : Option Nat
deriving Repr, DecidableEq

def predictEndpoint (available : Nat → Bool) (labelOf : Nat → String)
    (reg : ModelRegistryState) (model_version_id tenant_id : Option Nat) :
    Option PredictionResponse :=
  match registryPredict available labelOf reg model_version_id tenant_id with
  | some (r, reg') =>
    some { model_version := reg'.default_version, model_version_id := r.model_version_id }
  | none => none

theorem predict_resolves_of_maps (reg : ModelRegistryState) (t v2 : Nat)
    (hres : resolveVersionId reg none (some t) = some v2)
    (hpath : (alookup reg.version_paths v2).isSome)
    (available : Nat → Bool) (labelOf : Nat → String) (havail : available v2 = true) :
    ∃ r reg2, registryPredict available labelOf reg none (some t) = some (r, reg2) ∧
      r.model_version_id = some v2 := by
  cases hhit : alookup reg.loaded v2 with
  | some lbl =>
    refine ⟨{ model_version_id := some v2, model_version_label := lbl, did_load := false },
      { reg with loaded := reg.loaded.filter (fun p => !(p.1 == v2)) ++ [(v2, lbl)] },
      ?_, rfl⟩
    simp [registryPredict, hres, hhit]
  | none =>
    obtain ⟨p, hp⟩ := Option.isSome_iff_exists.mp hpath
    refine ⟨{ model_version_id := some v2, model_version_label := labelOf v2, did_load := true },
      { reg with loaded := (if reg.max_loaded ≤ reg.loaded.length then reg.loaded.tail
          else reg.loaded) ++ [(v2, labelOf v2)] }, ?_, rfl⟩
    simp [registryPredict, hres, hhit, loadVersion, hp, havail]

/-- C2: deploying an existing, non-deleted version v2 as production
patches the in-memory maps synchronously: a predict on the same process
for the version's tenant with no explicit version resolves to v2, the
artifact path is registered, and (whenever the artifact is loadable)
the prediction is served from v2. -/
theorem deploy_then_predict_resolves_new_version
    (st : SystemState) (v2 now nid : Nat) (w : MLModelVersionRow)
    (hfind : st.versions.find? (fun r => (r.id == v2) && !r.is_deleted) = some w) :
    ∃ st' resp, deploy_model_version st v2 true now nid = some (st', resp) ∧
      resolveVersionId st'.registry none (some w.tenant_id) = some v2 ∧
      alookup st'.registry.version_paths v2 = some w.model_artifact_path ∧
      (∀ available labelOf, available v2 = true →
        ∃ r reg2, registryPredict available labelOf st'.registry none (some w.tenant_id) =
            some (r, reg2) ∧ r.model_version_id = some v2) := by
  have hw : w.id = v2 := by
    have hpred := List.find?_some hfind
    simp only [Bool.and_eq_true, beq_iff_eq] at hpred
    exact hpred.1
  have hresolve : resolveVersionId
      { st.registry with
          tenant_defaults := setAssoc st.registry.tenant_defaults w.tenant_id w.id,
          version_paths := setAssoc st.registry.version_paths w.id w.model_artifact_path }
      none (some w.tenant_id) = some v2 := by
    simp [resolveVersionId, alookup_setAssoc_self, hw]
  have hpath : alookup (setAssoc st.registry.version_paths w.id w.model_artifact_path) v2 =
      some w.model_artifact_path := by
    rw [← hw]; exact alookup_setAssoc_self _ _ _
  have hdeploy : deploy_model_version st v2 true now nid = some
      ({ versions := st.versions.map (fun u =>
            if u.id == w.id then { u with stage := "production" } else u),
         deployments := st.deployments.map (closeOpenProd w.tenant_id w.model_id now) ++
           [{ id := nid, tenant_id := w.tenant_id, model_id := w.model_id,
              model_version_id := w.id, is_production := true,
              deployment_start := now, deployment_end := none }],
         registry := { st.registry with
           tenant_defaults := setAssoc st.registry.tenant_defaults w.tenant_id w.id,
           version_paths := setAssoc st.registry.version_paths w.id w.model_artifact_path } },
       { success := true, deployment_id := nid, is_production := true }) := by
    unfold deploy_model_version
    rw [hfind]
    rfl
  refine ⟨_, _, hdeploy, by simpa using hresolve, by simpa using hpath, ?_⟩
  intro available labelOf havail
  exact predict_resolves_of_maps _ _ _ (by simpa using hresolve)
    (by show (alookup (setAssoc st.registry.version_paths w.id
        w.model_artifact_path) v2).isSome = true
        rw [hpath]; rfl)
    available labelOf havail

/-- C6: a tenant with no entry in the tenant-default map and no explicit
version id gets a normal fallback response: `model_version_id` is null
and the label is the filesystem default model's version, both from the
registry and through the predict endpoint, provided the default model
is loaded. -/
theorem fallback_predict_no_production_deployment
    (reg : ModelRegistryState) (t : Nat)
    (available : Nat → Bool) (labelOf : Nat → String)
    (hnodef : alookup reg.tenant_defaults t = none)
    (hloaded : reg.default_loaded = true) :
    registryPredict available labelOf reg none (some t) =
      some ({ model_version_id := none, model_version_label := reg.default_version,
              did_load := false }, reg) ∧
    predictEndpoint available labelOf reg none (some t) =
      some { model_version := reg.default_version, model_version_id := none } := by
  have h1 : registryPredict available labelOf reg none (some t) =
      some ({ model_version_id := none, model_version_label := reg.default_version,
              did_load := false }, reg) := by
    simp [registryPredict, resolveVersionId, hnodef, hloaded]
  exact ⟨h1, by simp [predictEndpoint, h1]⟩

theorem alookup_eq_none_of_not_mem {β : Type} (l : List (Nat × β)) (k : Nat)
    (h : k ∉ l.map Prod.fst) : alookup l k = none := by
  induction l with
  | nil => rfl
  | cons p rest ih =>
    simp only [List.map_cons, List.mem_cons, not_or] at h
    have hne : p.1 ≠ k := fun hc => h.1 hc.symm
    simp only [alookup, if_neg hne]
    exact ih h.2

theorem alookup_some_mem {β : Type} (l : List (Nat × β)) (k : Nat) (v : β)
    (h : alookup l k = some v) : (k, v) ∈ l := by
  induction l with
  | nil => simp [alookup] at h
  | cons p rest ih =>
    by_cases hp : p.1 = k
    · simp only [alookup, if_pos hp, Option.some.injEq] at h
      have hpv : p = (k, v) := by
        obtain ⟨a, b⟩ := p
        simp only at hp h
        rw [hp, h]
      rw [show (k, v) = p from hpv.symm]
      exact List.mem_cons_self p rest
    · simp only [alookup, if_neg hp] at h
      exact List.mem_cons_of_mem _ (ih h)

theorem filter_key_eq_self {β : Type} (l : List (Nat × β)) (v : Nat)
    (h : v ∉ l.map Prod.fst) : l.filter (fun p => !(p.1 == v)) = l := by
  induction l with
  | nil => rfl
  | cons p rest ih =>
    simp only [List.map_cons, List.mem_cons, not_or] at h
    have : (!(p.1 == v)) = true := by
      simp only [Bool.not_eq_true', beq_eq_false_iff_ne]
      exact fun hc => h.1 hc.symm
    simp [List.filter_cons, this, ih h.2]

theorem length_filter_key {β : Type} (l : List (Nat × β)) (v : Nat) (lbl : β)
    (hnd : (l.map Prod.fst).Nodup) (h : alookup l v = some lbl) :
    (l.filter (fun p => !(p.1 == v))).length + 1 = l.length := by
  induction l with
  | nil => simp [alookup] at h
  | cons p rest ih =>
    simp only [List.map_cons, List.nodup_cons] at hnd
    by_cases hp : p.1 = v
    · have hvrest : v ∉ rest.map Prod.fst := hp ▸ hnd.1
      have hfb : (!(p.1 == v)) = false := by simp [hp]
      simp [List.filter_cons, hfb, filter_key_eq_self rest v hvrest]
    · simp only [alookup, if_neg hp] at h
      have hfb : (!(p.1 == v)) = true := by
        simp only [Bool.not_eq_true', beq_eq_false_iff_ne]
        exact hp
      simp only [List.filter_cons, hfb, if_true, List.length_cons]
      rw [← ih hnd.2 h]

theorem keys_filter_key {β : Type} (l : List (Nat × β)) (v : Nat) :
    (l.filter (fun p => !(p.1 == v))).map Prod.fst =
      (l.map Prod.fst).filter (fun k => !(k == v)) := by
  induction l with
  | nil => rfl
  | cons p rest ih =>
    cases hb : (!(p.1 == v)) with
    | true => simp [List.filter_cons, hb, ih]
    | false => simp [List.filter_cons, hb, ih]

theorem tail_append_singleton {α : Type} (l : List α) (a : α) (h : l ≠ []) :
    (l ++ [a]).tail = l.tail ++ [a] := by
  cases l with
  | nil => exact absurd rfl h
  | cons x xs => rfl

theorem getLast?_append_singleton {α : Type} (l : List α) (a : α) :
    (l ++ [a]).getLast? = some a := by
  induction l with
  | nil => rfl
  | cons x xs ih =>
    cases xs with
    | nil => rfl
    | cons y ys =>
      rw [List.cons_append, List.cons_append, List.getLast?_cons_cons]
      rw [List.cons_append] at ih
      exact ih

theorem loadVersion_eq_some (available : Nat → Bool) (labelOf : Nat → String)
    (reg : ModelRegistryState) (v : Nat) (p : String)
    (hp : alookup reg.version_paths v = some p) (ha : available v = true) :
    loadVersion available labelOf reg v = some (labelOf v,
      { reg with loaded := (if reg.max_loaded ≤ reg.loaded.length then reg.loaded.tail
          else reg.loaded) ++ [(v, labelOf v)] }) := by
  unfold loadVersion
  rw [hp]
  simp [ha]

theorem loadVersion_loaded (available : Nat → Bool) (labelOf : Nat → String)
    (reg : ModelRegistryState) (v : Nat) (lbl : String) (reg' : ModelRegistryState)
    (h : loadVersion available labelOf reg v = some (lbl, reg')) :
    reg'.loaded = (if reg.max_loaded ≤ reg.loaded.length then reg.loaded.tail
      else reg.loaded) ++ [(v, labelOf v)] := by
  unfold loadVersion at h
  cases hp : alookup reg.version_paths v with
  | none => rw [hp] at h; simp at h
  | some p =>
    rw [hp] at h
    by_cases ha : available v
    · simp only [ha, if_true, Option.some.injEq, Prod.mk.injEq] at h
      rw [← h.2]
    · simp [ha] at h

theorem predict_keeps_last (available : Nat → Bool) (labelOf : Nat → String)
    (rg : ModelRegistryState) (v : Nat) (lbl : String) (l1 : List (Nat × String))
    (hl : rg.loaded = l1 ++ [(v, lbl)]) (hne : l1 ≠ []) :
    ∀ mv tid r2 rg2, registryPredict available labelOf rg mv tid = some (r2, rg2) →
      v ∈ rg2.loaded.map Prod.fst := by
  intro mv tid r2 rg2 h
  have hvmem : (v, lbl) ∈ rg.loaded := by
    rw [hl]
    exact List.mem_append_right _ (List.mem_singleton_self _)
  unfold registryPredict at h
  cases hres : resolveVersionId rg mv tid with
  | none =>
    simp only [hres] at h
    by_cases hd : rg.default_loaded
    · simp only [hd, if_true, Option.some.injEq, Prod.mk.injEq] at h
      rw [← h.2]
      exact List.mem_map_of_mem _ hvmem
    · simp [hd] at h
  | some x =>
    simp only [hres] at h
    cases hhit : alookup rg.loaded x with
    | some lx =>
      simp only [hhit, Option.some.injEq, Prod.mk.injEq] at h
      rw [← h.2]
      by_cases hxv : x = v
      · subst hxv
        simp [List.map_append]
      · have hkeep : (v, lbl) ∈ rg.loaded.filter (fun p => !(p.1 == x)) := by
          apply List.mem_filter.mpr
          refine ⟨hvmem, ?_⟩
          simp only [Bool.not_eq_true', beq_eq_false_iff_ne]
          exact fun hc => hxv hc.symm
        simp only [List.map_append, List.mem_append]
        left
        exact List.mem_map_of_mem _ hkeep
    | none =>
      simp only [hhit] at h
      cases hload : loadVersion available labelOf rg x with
      | some pr =>
        obtain ⟨lx, rgx⟩ := pr
        simp only [hload, Option.some.injEq, Prod.mk.injEq] at h
        rw [← h.2]
        have hx := loadVersion_loaded available labelOf rg x lx rgx hload
        rw [hx]
        by_cases hfull : rg.max_loaded ≤ rg.loaded.length
        · rw [if_pos hfull, hl, tail_append_singleton _ _ hne]
          simp [List.map_append]
        · rw [if_neg hfull]
          simp only [List.map_append, List.mem_append]
          left
          exact List.mem_map_of_mem _ hvmem
      | none =>
        simp only [hload] at h
        by_cases hd : rg.default_loaded
        · simp only [hd, if_true, Option.some.injEq, Prod.mk.injEq] at h
          rw [← h.2]
          exact List.mem_map_of_mem _ hvmem
        · simp [hd] at h

/-- C3: the loaded-model cache is a capacity-bounded LRU. For a cache
with nodup keys within capacity: (a) a predict call never pushes the
cache above capacity; (b) at capacity, loading a fresh version with a
known, loadable artifact evicts exactly the least-recently-used entry
(the cache head) — the evicted key is gone — and the new entry enters
at the most-recently-used end; (c) a predict hit moves the entry to the
most-recently-used end without reloading (did_load = false) and without
changing the resident key set; (d) a hit protects the entry: whatever
the next predict call does (including an eviction at capacity), the
promoted entry survives it. -/
theorem lru_cache_correct
    (reg : ModelRegistryState) (available : Nat → Bool) (labelOf : Nat → String)
    (hN : 1 ≤ reg.max_loaded)
    (hnd : (reg.loaded.map Prod.fst).Nodup)
    (hlen : reg.loaded.length ≤ reg.max_loaded) :
    (∀ mv tid r reg', registryPredict available labelOf reg mv tid = some (r, reg') →
      reg'.loaded.length ≤ reg.max_loaded) ∧
    (∀ v, v ∉ reg.loaded.map Prod.fst → (alookup reg.version_paths v).isSome →
      available v = true → reg.loaded.length = reg.max_loaded →
      registryPredict available labelOf reg (some v) none =
        some ({ model_version_id := some v, model_version_label := labelOf v,
                did_load := true },
          { reg with loaded := reg.loaded.tail ++ [(v, labelOf v)] }) ∧
      (∀ x l2, reg.loaded = x :: l2 →
        x.1 ∉ (reg.loaded.tail ++ [(v, labelOf v)]).map Prod.fst)) ∧
    (∀ v lbl, alookup reg.loaded v = some lbl →
      registryPredict available labelOf reg (some v) none =
        some ({ model_version_id := some v, model_version_label := lbl,
                did_load := false },
          { reg with loaded := reg.loaded.filter (fun p => !(p.1 == v)) ++ [(v, lbl)] }) ∧
      (∀ x, x ∈ (reg.loaded.filter (fun p => !(p.1 == v)) ++ [(v, lbl)]).map Prod.fst ↔
        x ∈ reg.loaded.map Prod.fst) ∧
      (reg.loaded.filter (fun p => !(p.1 == v)) ++ [(v, lbl)]).getLast? = some (v, lbl)) ∧
    (∀ v lbl, alookup reg.loaded v = some lbl → 2 ≤ reg.loaded.length →
      ∀ mv tid r2 reg2,
        registryPredict available labelOf
          { reg with loaded := reg.loaded.filter (fun p => !(p.1 == v)) ++ [(v, lbl)] }
          mv tid = some (r2, reg2) →
        v ∈ reg2.loaded.map Prod.fst) := by
  refine ⟨?_, ?_, ?_, ?_⟩
  · -- (a) capacity bound
    intro mv tid r reg' h
    unfold registryPredict at h
    cases hres : resolveVersionId reg mv tid with
    | none =>
      simp only [hres] at h
      by_cases hd : reg.default_loaded
      · simp only [hd, if_true, Option.some.injEq, Prod.mk.injEq] at h
        rw [← h.2]
        exact hlen
      · simp [hd] at h
    | some x =>
      simp only [hres] at h
      cases hhit : alookup reg.loaded x with
      | some lx =>
        simp only [hhit, Option.some.injEq, Prod.mk.injEq] at h
        rw [← h.2]
        simp only [List.length_append, List.length_singleton]
        have := length_filter_key reg.loaded x lx hnd hhit
        omega
      | none =>
        simp only [hhit] at h
        cases hload : loadVersion available labelOf reg x with
        | some pr =>
          obtain ⟨lx, rgx⟩ := pr
          simp only [hload, Option.some.injEq, Prod.mk.injEq] at h
          rw [← h.2]
          have hx := loadVersion_loaded available labelOf reg x lx rgx hload
          rw [hx]
          simp only [List.length_append, List.length_singleton]
          by_cases hfull : reg.max_loaded ≤ reg.loaded.length
          · rw [if_pos hfull]
            have htl : reg.loaded.tail.length = reg.loaded.length - 1 :=
              List.length_tail _
            omega
          · rw [if_neg hfull]
            omega
        | none =>
          simp only [hload] at h
          by_cases hd : reg.default_loaded
          · simp only [hd, if_true, Option.some.injEq, Prod.mk.injEq] at h
            rw [← h.2]
            exact hlen
          · simp [hd] at h
  · -- (b) eviction exactness at capacity
    intro v hmiss hpath havail hfull
    have hnohit : alookup reg.loaded v = none := alookup_eq_none_of_not_mem _ _ hmiss
    obtain ⟨p, hp⟩ := Option.isSome_iff_exists.mp hpath
    have hload := loadVersion_eq_some available labelOf reg v p hp havail
    constructor
    · unfold registryPredict
      simp only [resolveVersionId, hnohit, hload, hfull, le_refl, if_true]
    · intro x l2 hcons
      have hx1 : x.1 ∉ l2.map Prod.fst := by
        have hnd' := hnd
        rw [hcons, List.map_cons, List.nodup_cons] at hnd'
        exact hnd'.1
      have hxv : x.1 ≠ v := by
        intro hc
        apply hmiss
        rw [hcons, ← hc]
        simp
      rw [hcons]
      simp only [List.tail_cons, List.map_append, List.mem_append, not_or]
      exact ⟨hx1, by simpa using hxv⟩
  · -- (c) hit promotes without reloading
    intro v lbl hhit
    have hvmem : v ∈ reg.loaded.map Prod.fst :=
      List.mem_map_of_mem _ (alookup_some_mem _ _ _ hhit)
    refine ⟨?_, ?_, getLast?_append_singleton _ _⟩
    · unfold registryPredict
      simp only [resolveVersionId, hhit]
    · intro x
      simp only [List.map_append, List.mem_append, keys_filter_key,
        List.mem_filter, List.map_cons, List.map_nil, List.mem_singleton]
      constructor
      · rintro (⟨hx, -⟩ | rfl)
        · exact hx
        · exact hvmem
      · intro hx
        by_cases hxv : x = v
        · right; exact hxv
        · left
          refine ⟨hx, ?_⟩
          simp only [Bool.not_eq_true', beq_eq_false_iff_ne]
          exact hxv
  · -- (d) protection from the next eviction
    intro v lbl hhit hlen2 mv tid r2 reg2 h
    have hflen := length_filter_key reg.loaded v lbl hnd hhit
    have hfne : reg.loaded.filter (fun p => !(p.1 == v)) ≠ [] := by
      intro hc
      rw [hc] at hflen
      simp at hflen
      omega
    exact predict_keeps_last available labelOf _ v lbl
      (reg.loaded.filter (fun p => !(p.1 == v))) rfl hfne mv tid r2 reg2 h

theorem alookup_foldl_setAssoc_of_not_mem {γ β : Type} (key : γ → Nat) (val : γ → β)
    (l : List γ) (m0 : List (Nat × β)) (k : Nat) (h : ∀ x ∈ l, key x ≠ k) :
    alookup (l.foldl (fun m x => setAssoc m (key x) (val x)) m0) k = alookup m0 k := by
  induction l generalizing m0 with
  | nil => rfl
  | cons x rest ih =>
    simp only [List.foldl_cons]
    rw [ih _ (fun y hy => h y (List.mem_cons_of_mem _ hy))]
    exact alookup_setAssoc_ne _ _ _ _ (h x (List.mem_cons_self _ _))

theorem alookup_foldl_setAssoc_mem {γ β : Type} (key : γ → Nat) (val : γ → β)
    (l : List γ) (m0 : List (Nat × β)) (x : γ)
    (hnd : (l.map key).Nodup) (hx : x ∈ l) :
    alookup (l.foldl (fun m y => setAssoc m (key y) (val y)) m0) (key x) = some (val x) := by
  induction l generalizing m0 with
  | nil => cases hx
  | cons y rest ih =>
    simp only [List.foldl_cons]
    simp only [List.map_cons, List.nodup_cons] at hnd
    rcases List.mem_cons.mp hx with h1 | h2
    · subst h1
      rw [alookup_foldl_setAssoc_of_not_mem key val rest _ (key x)
        (fun z hz hc => hnd.1 (hc ▸ List.mem_map_of_mem key hz))]
      exact alookup_setAssoc_self _ _ _
    · exact ih _ hnd.2 h2

theorem alookup_foldl_setAssoc_isSome {γ β : Type} (key : γ → Nat) (val : γ → β)
    (l : List γ) (m0 : List (Nat × β)) (k : Nat) :
    (alookup (l.foldl (fun m x => setAssoc m (key x) (val x)) m0) k).isSome =
      ((alookup m0 k).isSome || l.any (fun x => key x == k)) := by
  induction l generalizing m0 with
  | nil => simp
  | cons x rest ih =>
    simp only [List.foldl_cons, List.any_cons]
    rw [ih]
    by_cases hx : key x = k
    · rw [hx, alookup_setAssoc_self]
      simp
    · rw [alookup_setAssoc_ne _ _ _ _ hx]
      have hb : (key x == k) = false := by simp [hx]
      rw [hb]
      simp [Bool.or_assoc]

/-- The fresh tenant→version map `refresh_defaults` builds from the
production-flagged deployment rows: later rows overwrite earlier ones,
exactly as repeated dict assignment does. -/
def buildDefaults (deps : List MLModelDeploymentRow) : List (Nat × Nat) :=
  (deps.filter (fun d => d.is_production)).foldl
    (fun m d => setAssoc m d.tenant_id d.model_version_id) []

/-- Model of `ModelRegistry.refresh_defaults`: fetch the production deployments,
build a new tenant→version map from scratch and swap it in whole; then,
when any versions are referenced, upsert the artifact path of each
referenced version row into the existing version→path map (the map is
updated in place, not rebuilt). -/
def refresh_defaults (reg : ModelRegistryState) (deps : List MLModelDeploymentRow)
    (vers : List MLModelVersionRow) : ModelRegistryState :=
  let newDefaults := buildDefaults deps
  let versionIds := newDefaults.map Prod.snd
  let newPaths :=
    if versionIds.isEmpty then reg.version_paths
    else (vers.filter (fun v => decide (v.id ∈ versionIds))).foldl
      (fun m v => setAssoc m v.id v.model_artifact_path) reg.version_paths
  { reg with tenant_defaults := newDefaults, version_paths := newPaths }

def regC4 : ModelRegistryState :=
  { loaded := [], max_loaded := 10, tenant_defaults := [],
    version_paths := [(1, "models/versions/v1")], default_version := "v1",
    default_loaded := true }

def depsC4 : List MLModelDeploymentRow :=
  [{ id := 0, tenant_id := 5, model_id := 7, model_version_id := 2,
     is_production := true, deployment_start := 0, deployment_end := none }]

def versC4 : List MLModelVersionRow :=
  [{ id := 2, tenant_id := 5, model_id := 7, semantic_version := "1.0.2",
     full_version_label := "fault_classifier:1.0.2", stage := "production",
     model_artifact_path := "models/versions/v2", is_deleted := false }]

/-- C4 counterexample: after a refresh whose query references only
version 2, the version→path map still holds its old entry for version 1
(which no production deployment references), so the map does not contain
exactly the entries derived from that query: it was updated in place,
not rebuilt and swapped. -/
theorem refresh_defaults_not_exact_counterexample :
    (refresh_defaults regC4 depsC4 versC4).tenant_defaults = [(5, 2)] ∧
    (refresh_defaults regC4 depsC4 versC4).version_paths =
      [(1, "models/versions/v1"), (2, "models/versions/v2")] ∧
    alookup (refresh_defaults regC4 depsC4 versC4).version_paths 1 =
      some "models/versions/v1" ∧
    1 ∉ ((refresh_defaults regC4 depsC4 versC4).tenant_defaults).map Prod.snd := by
  refine ⟨rfl, rfl, rfl, ?_⟩
  decide

/-- C4 amended: `refresh_defaults` rebuilds the tenant→version map from
the production deployments alone and swaps it in whole (its entries are
exactly the tenants with a production-flagged deployment, later rows
winning), but the version→path map is updated in place: referenced
versions get their paths upserted while entries for versions no longer
referenced are retained unchanged from earlier runs. -/
theorem refresh_defaults_amended
    (reg : ModelRegistryState) (deps : List MLModelDeploymentRow)
    (vers : List MLModelVersionRow)
    (hvnd : (vers.map MLModelVersionRow.id).Nodup) :
    (refresh_defaults reg deps vers).tenant_defaults = buildDefaults deps ∧
    (∀ t, (alookup (buildDefaults deps) t).isSome = true ↔
      ∃ d ∈ deps, d.is_production = true ∧ d.tenant_id = t) ∧
    (∀ v ∈ vers, v.id ∈ (buildDefaults deps).map Prod.snd →
      alookup (refresh_defaults reg deps vers).version_paths v.id =
        some v.model_artifact_path) ∧
    (∀ k, k ∉ (buildDefaults deps).map Prod.snd →
      alookup (refresh_defaults reg deps vers).version_paths k =
        alookup reg.version_paths k) := by
  refine ⟨rfl, ?_, ?_, ?_⟩
  · intro t
    unfold buildDefaults
    rw [alookup_foldl_setAssoc_isSome
      (fun d : MLModelDeploymentRow => d.tenant_id)
      (fun d : MLModelDeploymentRow => d.model_version_id)
      (deps.filter (fun d => d.is_production)) [] t]
    simp only [alookup, Option.isSome_none, Bool.false_or, List.any_eq_true]
    constructor
    · rintro ⟨d, hd, hf⟩
      rw [List.mem_filter] at hd
      exact ⟨d, hd.1, hd.2, by simpa using hf⟩
    · rintro ⟨d, hd, hprod, ht⟩
      exact ⟨d, List.mem_filter.mpr ⟨hd, hprod⟩, by simpa using ht⟩
  · intro v hv hvid
    have hnonempty : ((buildDefaults deps).map Prod.snd).isEmpty = false := by
      cases hl : (buildDefaults deps).map Prod.snd with
      | nil => rw [hl] at hvid; cases hvid
      | cons a l => rfl
    unfold refresh_defaults
    simp only [hnonempty, Bool.false_eq_true, if_false]
    have hfnd : ((vers.filter (fun w =>
        decide (w.id ∈ (buildDefaults deps).map Prod.snd))).map
          MLModelVersionRow.id).Nodup := by
      apply List.Nodup.sublist _ hvnd
      exact List.Sublist.map _ (List.filter_sublist _)
    have hfmem : v ∈ vers.filter (fun w =>
        decide (w.id ∈ (buildDefaults deps).map Prod.snd)) :=
      List.mem_filter.mpr ⟨hv, by simpa using hvid⟩
    exact alookup_foldl_setAssoc_mem MLModelVersionRow.id
      MLModelVersionRow.model_artifact_path _ _ v hfnd hfmem
  · intro k hk
    unfold refresh_defaults
    cases hempty : ((buildDefaults deps).map Prod.snd).isEmpty with
    | true => simp only [hempty, if_true]
    | false =>
      simp only [hempty, Bool.false_eq_true, if_false]
      apply alookup_foldl_setAssoc_of_not_mem
      intro x hx hc
      rw [List.mem_filter] at hx
      apply hk
      rw [← hc]
      simpa using hx.2

/-- Row of the feedback table (fields used by retraining); an empty
payload models a NULL or empty stored feature list (falsy in the
source). -/
structure FeedbackRow where
  tenant_id : Nat
  payload_normalized : List Int
  new_label : String
deriving Repr, DecidableEq

structure TenantRow where
  id : Nat
  tenant_code : String
  is_deleted : Bool
deriving Repr, DecidableEq

structure MLModelRow where
  id : Nat
  tenant_id : Nat
  model_name : String
  is_deleted : Bool
deriving Repr, DecidableEq

/-- Model of `FeedbackService.get_feedback_count`: counts every feedback row of
the tenant (all rows when no tenant is given), payload or not. -/
def getFeedbackCount (rows : List FeedbackRow) (tenant : Option Nat) : Nat :=
  match tenant with
  | some t => (rows.filter (fun r => r.tenant_id == t)).length
  | none => rows.length

structure FeedbackBatch where
  features : List (List Int)
  labels : List String
  count : Nat
deriving Repr, DecidableEq

/-- Model of `FeedbackService.get_feedback_for_retraining`: tenant-scoped rows,
keeping only rows whose stored feature payload is non-empty; the
returned count is the number of usable rows only. -/
def getFeedbackForRetraining (rows : List FeedbackRow) (tenant : Option Nat) :
    FeedbackBatch :=
  let scopedRows : List FeedbackRow :=
    match tenant with
    | some t => rows.filter (fun r => r.tenant_id == t)
    | none => rows
  let usable := scopedRows.filter (fun r => !r.payload_normalized.isEmpty)
  { features := usable.map (fun r => r.payload_normalized),
    labels := usable.map (fun r => r.new_label),
    count := usable.length }

/-- Model of `sorted(list(original_classes | feedback_classes))`: the sorted
deduplicated union of the two label sets, the class list of the
brand-new label encoder. -/
def sortedUnion (a b : List String) : List String :=
  ((a ++ b).dedup).mergeSort (fun x y => decide (x ≤ y))

/-- Model of `RetrainingPipeline._next_version`: one plus the count of version
rows, scoped to the tenant when one is given but never to the model
id; yields the label v{n} and the semantic version 1.0.{n}. -/
def nextVersion (versions : List MLModelVersionRow) (tenant : Option Nat) :
    String × String :=
  let count :=
    match tenant with
    | some t => (versions.filter (fun v => v.tenant_id == t)).length
    | none => versions.length
  ("v" ++ toString (count + 1), "1.0." ++ toString (count + 1))

/-- State touched by the retraining pipeline: the held per-(tenant,
model) mutexes, the PG tables it reads and writes, and the current
model's label-encoder class list (sklearn keeps it sorted). -/
structure PipelineState where
  locks : List (String × String)
  feedback : List FeedbackRow
  tenants : List TenantRow
  mlModels : List MLModelRow
  versions : List MLModelVersionRow
  encoderClasses : List String
deriving Repr, DecidableEq

/-- Python `str` of an optional id, as used in the mutex key
`(str(tenant_id), str(model_id))`. -/
def optStr : Option Nat → String
  | some n => toString n
  | none => "None"

def lockKey (tenant model : Option Nat) : String × String :=
  (optStr tenant, optStr model)

/-- Model of `RetrainingPipeline._write_version_to_pg`: resolve the tenant (the
default tenant when none is given) and the model (the tenant's
fault_classifier when none is given); when either is missing the write
is skipped with a warning, else the staging version row is inserted. -/
def writeVersionToPG (st : PipelineState) (version_label semantic_version : String)
    (tenant model : Option Nat) (new_row_id : Nat) : PipelineState :=
  let tid? : Option Nat :=
    match tenant with
    | some t => some t
    | none =>
      (st.tenants.find? (fun r => (r.tenant_code == "default") && !r.is_deleted)).map
        (fun r => r.id)
  match tid? with
  | none => st
  | some tid =>
    let mid? : Option Nat :=
      match model with
      | some m => some m
      | none =>
        (st.mlModels.find? (fun r => (r.tenant_id == tid) &&
          (r.model_name == "fault_classifier") && !r.is_deleted)).map (fun r => r.id)
    match mid? with
    | none => st
    | some mid =>
      { st with versions := st.versions ++
          [{ id := new_row_id, tenant_id := tid, model_id := mid,
             semantic_version := semantic_version,
             full_version_label := "fault_classifier:" ++ semantic_version,
             stage := "staging",
             model_artifact_path := "models/versions/" ++ version_label,
             is_deleted := false }] }

inductive RetrainOutcome where
  | noFeedback
  | done (version_label : String) (semantic_version : String)
      (encoderClasses : List String)
deriving Repr, DecidableEq

def RetrainOutcome.success : RetrainOutcome → Bool
  | .noFeedback => false
  | .done _ _ _ => true

def RetrainOutcome.message : RetrainOutcome → String
  | .noFeedback => "No feedback data available"
  | .done _ _ _ => "Model retrained successfully"

def RetrainOutcome.versionLabel : RetrainOutcome → Option String
  | .noFeedback => none
  | .done l _ _ => some l

def RetrainOutcome.semanticVersion : RetrainOutcome → Option String
  | .noFeedback => none
  | .done _ s _ => some s

def RetrainOutcome.encoder : RetrainOutcome → Option (List String)
  | .noFeedback => none
  | .done _ _ e => some e

/-- Model of `RetrainingPipeline._do_retrain` (label-set, versioning and
persistence logic; the numeric fit itself is delegated to the training
library): load tenant-scoped feedback, fail fast when no usable rows;
when feedback carries labels unknown to the current encoder, build a
brand-new encoder over the sorted union (the current encoder object is
left untouched); compute the next version label from the tenant's
version count; write the staging version row. -/
def doRetrain (st : PipelineState) (tenant model : Option Nat) (new_row_id : Nat) :
    RetrainOutcome × PipelineState :=
  let fb := getFeedbackForRetraining st.feedback tenant
  if fb.count == 0 then (.noFeedback, st)
  else
    let newClasses := fb.labels.filter (fun l => decide (l ∉ st.encoderClasses))
    let encoder :=
      if newClasses.isEmpty then st.encoderClasses
      else sortedUnion st.encoderClasses fb.labels
    let nv := nextVersion st.versions tenant
    let st' := writeVersionToPG st nv.1 nv.2 tenant model new_row_id
    (.done nv.1 nv.2 encoder, st')

inductive RetrainCallResult where
  | alreadyRunning
  | outcome (r : RetrainOutcome)
deriving Repr, DecidableEq

def RetrainCallResult.success : RetrainCallResult → Bool
  | .alreadyRunning => false
  | .outcome r => r.success

def RetrainCallResult.message : RetrainCallResult → String
  | .alreadyRunning => "Retraining already in progress for this tenant/model"
  | .outcome r => r.message

/-- Model of `RetrainingPipeline.retrain_model`: when the per-(tenant, model)
mutex is already held, return the structured `already_running` result
immediately, without queueing and without touching any state; otherwise
hold the mutex across `_do_retrain` and release it afterwards, on the
success and the failure path alike. -/
def retrainModel (st : PipelineState) (tenant model : Option Nat) (new_row_id : Nat) :
    RetrainCallResult × PipelineState :=
  let k := lockKey tenant model
  if k ∈ st.locks then (.alreadyRunning, st)
  else
    let st1 := { st with locks := k :: st.locks }
    let res := doRetrain st1 tenant model new_row_id
    (.outcome res.1,
      { res.2 with locks := res.2.locks.filter (fun k2 => decide (k2 ≠ k)) })

inductive EnterResult where
  | alreadyRunning
  | acquired
deriving Repr, DecidableEq

/-- The entry of `retrain_model` in isolation: `if lock.locked()`
returns `already_running` at once; otherwise `async with lock` acquires
the mutex and the run begins while it is held. -/
def retrainEnter (held : List (String × String)) (tenant model : Option Nat) :
    EnterResult × List (String × String) :=
  if lockKey tenant model ∈ held then (.alreadyRunning, held)
  else (.acquired, lockKey tenant model :: held)

/-- The exit of the `async with lock` block: the mutex is released when
the holding run finishes, on the success and the failure path alike. -/
def retrainFinish (held : List (String × String)) (tenant model : Option Nat) :
    List (String × String) :=
  held.filter (fun k2 => decide (k2 ≠ lockKey tenant model))

def MIN_FEEDBACK_FOR_RETRAIN : Nat := 10

inductive RetrainResponse where
  | response (success : Bool) (message : String) (feedback_count : Nat)
      (outcome : Option RetrainCallResult)
deriving Repr, DecidableEq

/-- Model of the `/retrain` endpoint `trigger_retrain` (synchronous mode): count
every feedback row of the tenant; below the configured minimum return
`success=false` at once — the pipeline with its mutexes and the version
table are never touched; otherwise run `retrain_model` and relay its
structured result. -/
def triggerRetrain (st : PipelineState) (tenant model : Option Nat)
    (new_row_id : Nat) : RetrainResponse × PipelineState :=
  let cnt := getFeedbackCount st.feedback tenant
  if cnt < MIN_FEEDBACK_FOR_RETRAIN then
    (.response false ("Insufficient feedback. Need " ++
      toString MIN_FEEDBACK_FOR_RETRAIN ++ ", have " ++ toString cnt) cnt none, st)
  else
    let res := retrainModel st tenant model new_row_id
    (.response res.1.success res.1.message cnt (some res.1), res.2)

theorem filter_ne_of_not_mem {α : Type} [DecidableEq α] (l : List α) (k : α)
    (h : k ∉ l) : l.filter (fun x => decide (x ≠ k)) = l := by
  induction l with
  | nil => rfl
  | cons a rest ih =>
    simp only [List.mem_cons, not_or] at h
    have hne : a ≠ k := fun hc => h.1 hc.symm
    rw [List.filter_cons]
    have hd : decide (a ≠ k) = true := decide_eq_true hne
    rw [hd, if_pos rfl, ih h.2]

theorem writeVersionToPG_locks (st : PipelineState) (vl sv : String)
    (tenant model : Option Nat) (nid : Nat) :
    (writeVersionToPG st vl sv tenant model nid).locks = st.locks := by
  unfold writeVersionToPG
  repeat' (first | rfl | dsimp only | split)

theorem writeVersionToPG_encoderClasses (st : PipelineState) (vl sv : String)
    (tenant model : Option Nat) (nid : Nat) :
    (writeVersionToPG st vl sv tenant model nid).encoderClasses = st.encoderClasses := by
  unfold writeVersionToPG
  repeat' (first | rfl | dsimp only | split)

theorem doRetrain_locks (st : PipelineState) (tenant model : Option Nat) (nid : Nat) :
    ((doRetrain st tenant model nid).2).locks = st.locks := by
  unfold doRetrain
  dsimp only
  split
  · rfl
  · exact writeVersionToPG_locks st _ _ tenant model nid

theorem doRetrain_encoderClasses (st : PipelineState) (tenant model : Option Nat)
    (nid : Nat) :
    ((doRetrain st tenant model nid).2).encoderClasses = st.encoderClasses := by
  unfold doRetrain
  dsimp only
  split
  · rfl
  · exact writeVersionToPG_encoderClasses st _ _ tenant model nid

/-- C5: a retrain call that finds the (tenant, model) mutex held
returns `already_running` immediately — nothing queued, no state
change; the holding run's exit releases the mutex on the success and
failure paths alike, after which a fresh call acquires it; and a full
run from a free mutex never answers `already_running` and ends with
the lock table exactly as it began. -/
theorem retrain_mutual_exclusion
    (st : PipelineState) (tenant model : Option Nat) (nid : Nat)
    (hheld : lockKey tenant model ∈ st.locks) :
    retrainModel st tenant model nid = (.alreadyRunning, st) ∧
    retrainEnter st.locks tenant model = (.alreadyRunning, st.locks) ∧
    (∀ held2, lockKey tenant model ∉ retrainFinish held2 tenant model) ∧
    (∀ held2, (retrainEnter (retrainFinish held2 tenant model) tenant model).1 =
      .acquired) ∧
    (∀ st0 : PipelineState, lockKey tenant model ∉ st0.locks →
      ((retrainModel st0 tenant model nid).2).locks = st0.locks ∧
      (retrainModel st0 tenant model nid).1 ≠ .alreadyRunning) := by
  refine ⟨?_, ?_, ?_, ?_, ?_⟩
  · simp [retrainModel, hheld]
  · simp [retrainEnter, hheld]
  · intro held2
    simp [retrainFinish, List.mem_filter]
  · intro held2
    have hnot : lockKey tenant model ∉ retrainFinish held2 tenant model := by
      simp [retrainFinish, List.mem_filter]
    simp [retrainEnter, hnot]
  · intro st0 hfree
    constructor
    · simp only [retrainModel, if_neg hfree]
      rw [doRetrain_locks]
      show (lockKey tenant model :: st0.locks).filter
        (fun k2 => decide (k2 ≠ lockKey tenant model)) = st0.locks
      rw [List.filter_cons]
      have hd : decide (lockKey tenant model ≠ lockKey tenant model) = false := by simp
      rw [hd]
      simp only [Bool.false_eq_true, if_false]
      exact filter_ne_of_not_mem st0.locks _ hfree
    · simp [retrainModel, hfree]

/-- C8: a retrain request whose tenant-wide feedback count is below the
configured minimum (default 10) is rejected up front: the endpoint
answers `success=false` with the pipeline never invoked (outcome none)
and the state — mutexes, version table, everything — unchanged,
whatever the current lock state. -/
theorem retrain_insufficient_feedback_rejected
    (st : PipelineState) (tenant model : Option Nat) (nid : Nat)
    (hlow : getFeedbackCount st.feedback tenant < MIN_FEEDBACK_FOR_RETRAIN) :
    triggerRetrain st tenant model nid =
      (.response false ("Insufficient feedback. Need " ++
          toString MIN_FEEDBACK_FOR_RETRAIN ++ ", have " ++
          toString (getFeedbackCount st.feedback tenant))
        (getFeedbackCount st.feedback tenant) none, st) := by
  simp [triggerRetrain, hlow]

/-- C10: when every feedback row of the tenant carries an empty stored
payload, the endpoint gate (which counts all rows) passes, yet the
retraining run — which counts only rows with a non-empty payload —
immediately returns the structured "No feedback data available"
failure; no version row is created and the state is unchanged. -/
theorem retrain_empty_payload_gap
    (st : PipelineState) (t : Nat) (model : Option Nat) (nid : Nat)
    (hall : ∀ r ∈ st.feedback, r.tenant_id = t → r.payload_normalized = [])
    (hmin : ¬getFeedbackCount st.feedback (some t) < MIN_FEEDBACK_FOR_RETRAIN)
    (hfree : lockKey (some t) model ∉ st.locks) :
    triggerRetrain st (some t) model nid =
      (.response false "No feedback data available"
        (getFeedbackCount st.feedback (some t))
        (some (.outcome .noFeedback)), st) := by
  have husable : (getFeedbackForRetraining st.feedback (some t)).count = 0 := by
    show ((st.feedback.filter (fun r => r.tenant_id == t)).filter
      (fun r => !r.payload_normalized.isEmpty)).length = 0
    rw [List.length_eq_zero, List.filter_eq_nil_iff]
    intro r hr
    rw [List.mem_filter] at hr
    have hempty := hall r hr.1 (by simpa using hr.2)
    simp [hempty]
  have hdo : doRetrain { st with locks := lockKey (some t) model :: st.locks }
      (some t) model nid =
      (.noFeedback, { st with locks := lockKey (some t) model :: st.locks }) := by
    unfold doRetrain
    dsimp only
    rw [if_pos (by simpa using husable)]
  have hfilters : (lockKey (some t) model :: st.locks).filter
      (fun k2 => decide (k2 ≠ lockKey (some t) model)) = st.locks := by
    rw [List.filter_cons]
    have hd : decide (lockKey (some t) model ≠ lockKey (some t) model) = false := by simp
    rw [hd]
    simp only [Bool.false_eq_true, if_false]
    exact filter_ne_of_not_mem st.locks _ hfree
  have hrm : retrainModel st (some t) model nid = (.outcome .noFeedback, st) := by
    simp only [retrainModel, if_neg hfree]
    rw [hdo]
    simp only []
    rw [hfilters]
  simp only [triggerRetrain, if_neg hmin]
  rw [hrm]
  rfl

/-- C9: a successful tenant-scoped retrain takes its version number
from the count of ALL the tenant's version rows plus one — across all
the tenant's models, not scoped to the model id — yielding the label
v{n} and the semantic version 1.0.{n}; consequently the assigned label
is the same whatever model id is retrained. -/
theorem retrain_version_label_tenant_scoped
    (st : PipelineState) (t : Nat) (model : Option Nat) (nid : Nat)
    (hfb : (getFeedbackForRetraining st.feedback (some t)).count ≠ 0) :
    ((doRetrain st (some t) model nid).1).versionLabel =
      some ("v" ++ toString
        ((st.versions.filter (fun v => v.tenant_id == t)).length + 1)) ∧
    ((doRetrain st (some t) model nid).1).semanticVersion =
      some ("1.0." ++ toString
        ((st.versions.filter (fun v => v.tenant_id == t)).length + 1)) ∧
    (∀ model2 nid2, ((doRetrain st (some t) model2 nid2).1).versionLabel =
      ((doRetrain st (some t) model nid).1).versionLabel) := by
  have hcond : ((getFeedbackForRetraining st.feedback (some t)).count == 0) = false := by
    simpa using hfb
  have hfst : ∀ (m2 : Option Nat) (n2 : Nat), (doRetrain st (some t) m2 n2).1 =
      .done ("v" ++ toString
          ((st.versions.filter (fun v => v.tenant_id == t)).length + 1))
        ("1.0." ++ toString
          ((st.versions.filter (fun v => v.tenant_id == t)).length + 1))
        (if ((getFeedbackForRetraining st.feedback (some t)).labels.filter
            (fun l => decide (l ∉ st.encoderClasses))).isEmpty then st.encoderClasses
         else sortedUnion st.encoderClasses
            (getFeedbackForRetraining st.feedback (some t)).labels) := by
    intro m2 n2
    unfold doRetrain
    dsimp only
    rw [hcond]
    simp only [Bool.false_eq_true, if_false]
    rfl
  refine ⟨?_, ?_, ?_⟩
  · rw [hfst model nid]
    rfl
  · rw [hfst model nid]
    rfl
  · intro m2 n2
    rw [hfst m2 n2, hfst model nid]

theorem sortedUnion_mem (a b : List String) (x : String) :
    x ∈ sortedUnion a b ↔ x ∈ a ∨ x ∈ b := by
  unfold sortedUnion
  rw [List.mem_mergeSort, List.mem_dedup, List.mem_append]

theorem sortedUnion_nodup (a b : List String) : (sortedUnion a b).Nodup :=
  (List.mergeSort_perm ((a ++ b).dedup) (fun x y => decide (x ≤ y))).nodup_iff.mpr
    (List.nodup_dedup _)

theorem sortedUnion_sorted_lt (a b : List String) :
    (sortedUnion a b).Pairwise (· < ·) := by
  have hle : (sortedUnion a b).Pairwise
      (fun x y : String => decide (x ≤ y) = true) :=
    List.sorted_mergeSort
      (fun x y z hxy hyz => by
        simp only [decide_eq_true_eq] at hxy hyz ⊢
        exact le_trans hxy hyz)
      (fun x y => by
        simp only [Bool.or_eq_true, decide_eq_true_eq]
        exact le_total x y)
      ((a ++ b).dedup)
  have hcomb := hle.and (sortedUnion_nodup a b)
  exact hcomb.imp (fun hxy => by
    have h1 := of_decide_eq_true hxy.1
    exact lt_of_le_of_ne h1 hxy.2)

theorem indexOf_mono_of_sorted (l : List String) (hs : l.Pairwise (· < ·))
    (a b : String) (ha : a ∈ l) (hb : b ∈ l) (hab : a < b) :
    List.indexOf a l < List.indexOf b l := by
  induction l with
  | nil => cases ha
  | cons x rest ih =>
    rw [List.pairwise_cons] at hs
    by_cases hax : x = a
    · have hbx : x ≠ b := by
        intro hc
        have heq : a = b := (hax.symm.trans hc)
        rw [heq] at hab
        exact lt_irrefl _ hab
      rw [List.indexOf_cons_eq rest hax, List.indexOf_cons_ne rest hbx]
      exact Nat.succ_pos _
    · have ha' : a ∈ rest := by
        rcases List.mem_cons.mp ha with h1 | h2
        · exact absurd h1.symm hax
        · exact h2
      have hbx : x ≠ b := by
        intro hc
        have hxa := hs.1 a ha'
        rw [← hc] at hab
        exact lt_irrefl _ (hab.trans hxa)
      have hb' : b ∈ rest := by
        rcases List.mem_cons.mp hb with h1 | h2
        · exact absurd h1.symm hbx
        · exact h2
      rw [List.indexOf_cons_ne rest hax, List.indexOf_cons_ne rest hbx]
      exact Nat.succ_lt_succ (ih hs.2 ha' hb')

/-- C7: when feedback carries a corrected label unknown to the current
encoder, retraining builds a brand-new encoder whose class list is the
sorted deduplicated union of the old classes and the feedback labels;
the current encoder's class list is left untouched; the union contains
exactly the old and feedback labels, is strictly sorted (each label
once), and old labels keep their relative order — so each keeps the
index the union sort assigns it, and every feedback label is encodable. -/
theorem retrain_new_class_encoder
    (st : PipelineState) (tenant model : Option Nat) (nid : Nat)
    (hfb : (getFeedbackForRetraining st.feedback tenant).count ≠ 0)
    (hnew : ∃ l ∈ (getFeedbackForRetraining st.feedback tenant).labels,
      l ∉ st.encoderClasses) :
    ((doRetrain st tenant model nid).1).encoder =
      some (sortedUnion st.encoderClasses
        (getFeedbackForRetraining st.feedback tenant).labels) ∧
    ((doRetrain st tenant model nid).2).encoderClasses = st.encoderClasses ∧
    (∀ x, x ∈ sortedUnion st.encoderClasses
        (getFeedbackForRetraining st.feedback tenant).labels ↔
      x ∈ st.encoderClasses ∨
        x ∈ (getFeedbackForRetraining st.feedback tenant).labels) ∧
    (sortedUnion st.encoderClasses
      (getFeedbackForRetraining st.feedback tenant).labels).Pairwise (· < ·) ∧
    (∀ a b, a ∈ st.encoderClasses → b ∈ st.encoderClasses → a < b →
      List.indexOf a (sortedUnion st.encoderClasses
        (getFeedbackForRetraining st.feedback tenant).labels) <
      List.indexOf b (sortedUnion st.encoderClasses
        (getFeedbackForRetraining st.feedback tenant).labels)) := by
  have hcond : ((getFeedbackForRetraining st.feedback tenant).count == 0) = false := by
    simpa using hfb
  obtain ⟨l, hl, hlnot⟩ := hnew
  have hne : ((getFeedbackForRetraining st.feedback tenant).labels.filter
      (fun y => decide (y ∉ st.encoderClasses))).isEmpty = false := by
    cases hni : ((getFeedbackForRetraining st.feedback tenant).labels.filter
        (fun y => decide (y ∉ st.encoderClasses))).isEmpty with
    | false => rfl
    | true =>
      exfalso
      have hnil := List.isEmpty_iff.mp hni
      have hmem : l ∈ (getFeedbackForRetraining st.feedback tenant).labels.filter
          (fun y => decide (y ∉ st.encoderClasses)) :=
        List.mem_filter.mpr ⟨hl, decide_eq_true hlnot⟩
      rw [hnil] at hmem
      cases hmem
  refine ⟨?_, doRetrain_encoderClasses st tenant model nid, sortedUnion_mem _ _,
    sortedUnion_sorted_lt _ _, ?_⟩
  · unfold doRetrain
    dsimp only
    rw [hcond]
    simp only [Bool.false_eq_true, if_false]
    show RetrainOutcome.encoder (.done _ _ _) = _
    rw [RetrainOutcome.encoder]
    rw [hne]
    simp only [Bool.false_eq_true, if_false]
  · intro a b ha hb hab
    exact indexOf_mono_of_sorted _ (sortedUnion_sorted_lt _ _) a b
      ((sortedUnion_mem _ _ a).mpr (Or.inl ha))
      ((sortedUnion_mem _ _ b).mpr (Or.inl hb)) hab

def wC2 : MLModelVersionRow :=
  { id := 2, tenant_id := 5, model_id := 7, semantic_version := "1.0.2",
    full_version_label := "fault_classifier:1.0.2", stage := "staging",
    model_artifact_path := "models/versions/v2", is_deleted := false }

def regC2 : ModelRegistryState :=
  { loaded := [], max_loaded := 10, tenant_defaults := [],
    version_paths := [], default_version := "v1", default_loaded := true }

def stC2 : SystemState :=
  { versions := [wC2], deployments := [], registry := regC2 }

theorem deploy_then_predict_resolves_new_version_witness :
    ∃ st' resp, deploy_model_version stC2 2 true 100 9 = some (st', resp) ∧
      resolveVersionId st'.registry none (some wC2.tenant_id) = some 2 ∧
      alookup st'.registry.version_paths 2 = some wC2.model_artifact_path ∧
      (∀ available labelOf, available 2 = true →
        ∃ r reg2, registryPredict available labelOf st'.registry none
            (some wC2.tenant_id) = some (r, reg2) ∧ r.model_version_id = some 2) :=
  deploy_then_predict_resolves_new_version stC2 2 100 9 wC2 (by decide)

def regC3 : ModelRegistryState :=
  { loaded := [(1, "a"), (2, "b")], max_loaded := 2, tenant_defaults := [],
    version_paths := [(3, "p3")], default_version := "v1", default_loaded := true }

theorem lru_cache_correct_witness :
    registryPredict (fun _ => true) (fun _ => "x") regC3 (some 3) none =
      some ({ model_version_id := some 3, model_version_label := "x", did_load := true },
        { regC3 with loaded := [(2, "b"), (3, "x")] }) :=
  ((lru_cache_correct regC3 (fun _ => true) (fun _ => "x")
    (by decide) (by decide) (by decide)).2.1 3 (by decide) (by decide) rfl rfl).1

theorem refresh_defaults_amended_witness :
    (refresh_defaults regC4 depsC4 versC4).tenant_defaults = buildDefaults depsC4 ∧
    alookup (refresh_defaults regC4 depsC4 versC4).version_paths 2 =
      some "models/versions/v2" ∧
    alookup (refresh_defaults regC4 depsC4 versC4).version_paths 1 =
      alookup regC4.version_paths 1 := by
  have h := refresh_defaults_amended regC4 depsC4 versC4 (by decide)
  refine ⟨h.1, ?_, h.2.2.2 1 (by decide)⟩
  exact h.2.2.1
    { id := 2, tenant_id := 5, model_id := 7, semantic_version := "1.0.2",
      full_version_label := "fault_classifier:1.0.2", stage := "production",
      model_artifact_path := "models/versions/v2", is_deleted := false }
    (by decide) (by decide)

def stC5 : PipelineState :=
  { locks := [("5", "7")], feedback := [], tenants := [], mlModels := [],
    versions := [], encoderClasses := [] }

theorem retrain_mutual_exclusion_witness :
    retrainModel stC5 (some 5) (some 7) 0 = (.alreadyRunning, stC5) ∧
    (∀ held2, lockKey (some 5) (some 7) ∉ retrainFinish held2 (some 5) (some 7)) :=
  ⟨(retrain_mutual_exclusion stC5 (some 5) (some 7) 0 (by decide)).1,
   (retrain_mutual_exclusion stC5 (some 5) (some 7) 0 (by decide)).2.2.1⟩

def regC6 : ModelRegistryState :=
  { loaded := [], max_loaded := 10, tenant_defaults := [], version_paths := [],
    default_version := "v1", default_loaded := true }

theorem fallback_predict_witness :
    registryPredict (fun _ => false) (fun _ => "x") regC6 none (some 42) =
      some ({ model_version_id := none, model_version_label := "v1",
              did_load := false }, regC6) ∧
    predictEndpoint (fun _ => false) (fun _ => "x") regC6 none (some 42) =
      some { model_version := "v1", model_version_id := none } :=
  fallback_predict_no_production_deployment regC6 42 (fun _ => false) (fun _ => "x")
    rfl rfl

def fbC7 : FeedbackRow :=
  { tenant_id := 5, payload_normalized := [1], new_label := "overheat" }

def stC7 : PipelineState :=
  { locks := [], feedback := [fbC7], tenants := [], mlModels := [],
    versions := [], encoderClasses := ["bearing_fault", "normal"] }

theorem retrain_new_class_encoder_witness :
    ((doRetrain stC7 (some 5) none 0).1).encoder =
      some (sortedUnion stC7.encoderClasses
        (getFeedbackForRetraining stC7.feedback (some 5)).labels) ∧
    ((doRetrain stC7 (some 5) none 0).2).encoderClasses = stC7.encoderClasses := by
  have h := retrain_new_class_encoder stC7 (some 5) none 0 (by decide)
    ⟨"overheat", by decide, by decide⟩
  exact ⟨h.1, h.2.1⟩

def stC8 : PipelineState :=
  { locks := [], feedback := [], tenants := [], mlModels := [], versions := [],
    encoderClasses := [] }

theorem retrain_insufficient_feedback_rejected_witness :
    triggerRetrain stC8 none none 0 =
      (.response false ("Insufficient feedback. Need " ++
          toString MIN_FEEDBACK_FOR_RETRAIN ++ ", have " ++
          toString (getFeedbackCount stC8.feedback none))
        (getFeedbackCount stC8.feedback none) none, stC8) :=
  retrain_insufficient_feedback_rejected stC8 none none 0 (by decide)

def fbC9 : FeedbackRow :=
  { tenant_id := 5, payload_normalized := [1], new_label := "a" }

def vrowC9 : MLModelVersionRow :=
  { id := 1, tenant_id := 5, model_id := 7, semantic_version := "1.0.1",
    full_version_label := "fault_classifier:1.0.1", stage := "production",
    model_artifact_path := "models/versions/v1", is_deleted := false }

def stC9 : PipelineState :=
  { locks := [], feedback := [fbC9], tenants := [], mlModels := [],
    versions := [vrowC9], encoderClasses := ["a"] }

theorem retrain_version_label_tenant_scoped_witness :
    ((doRetrain stC9 (some 5) (some 7) 0).1).versionLabel =
      some ("v" ++ toString
        ((stC9.versions.filter (fun v => v.tenant_id == 5)).length + 1)) ∧
    ((doRetrain stC9 (some 5) (some 8) 1).1).versionLabel =
      ((doRetrain stC9 (some 5) (some 7) 0).1).versionLabel := by
  have h := retrain_version_label_tenant_scoped stC9 5 (some 7) 0 (by decide)
  exact ⟨h.1, h.2.2 (some 8) 1⟩

def fbC10 : FeedbackRow :=
  { tenant_id := 5, payload_normalized := [], new_label := "a" }

def stC10 : PipelineState :=
  { locks := [], feedback := List.replicate 10 fbC10, tenants := [],
    mlModels := [], versions := [], encoderClasses := [] }

theorem retrain_empty_payload_gap_witness :
    triggerRetrain stC10 (some 5) none 0 =
      (.response false "No feedback data available"
        (getFeedbackCount stC10.feedback (some 5))
        (some (.outcome .noFeedback)), stC10) :=
  retrain_empty_payload_gap stC10 5 none 0 (by decide) (by decide) (by decide)
